import Mathlib

/-!
Shallow embedding of the Heads-Up Hold Em trainer engine (src/app.js).

Conventions used throughout:
* JS numbers that hold chip amounts are modelled as rationals (all chip
  arithmetic in the source is exact in floating point at the scales used;
  the only division is the pot split `pot / 2`).
* Card rank values are the `RANK_VALUES` table (2..14) as naturals.
* A JS value that may be `undefined` is modelled as an `Option`; in
  particular `Array.prototype.pop()` on an empty array yields `none`, and
  tie-break vectors are lists of `Option Nat` because the source can push
  the result of `Array.prototype.find` (possibly `undefined`) into them.
* JS `sort` with comparator `(a, b) => V[b] - V[a]` is modelled by a stable
  insertion sort in descending rank-value order; the source never depends
  on the relative order of equal keys.
* `[...new Set(xs)]` is modelled by a first-occurrence deduplication.
-/

namespace HeadsUp

/-- The four suits, in the order of the `SUITS` array of the source. -/
inductive Suit where
  | S | H | D | C
deriving DecidableEq, Repr

/-- The thirteen ranks, in the order of the `RANKS` array of the source. -/
inductive Rank where
  | r2 | r3 | r4 | r5 | r6 | r7 | r8 | r9 | rT | rJ | rQ | rK | rA
deriving DecidableEq, Repr

/-- The `RANK_VALUES` table of src/app.js (ace high). -/
def rankValue : Rank → Nat
  | .r2 => 2 | .r3 => 3 | .r4 => 4 | .r5 => 5 | .r6 => 6 | .r7 => 7
  | .r8 => 8 | .r9 => 9 | .rT => 10 | .rJ => 11 | .rQ => 12 | .rK => 13
  | .rA => 14

/-- A card is a rank plus a suit (class `Card` of src/app.js). -/
structure Card where
  rank : Rank
  suit : Suit
deriving DecidableEq, Repr

/-- The `SUITS` array of src/app.js. -/
def SUITS : List Suit := [.S, .H, .D, .C]

/-- The `RANKS` array of src/app.js. -/
def RANKS : List Rank :=
  [.r2, .r3, .r4, .r5, .r6, .r7, .r8, .r9, .rT, .rJ, .rQ, .rK, .rA]

/-- The 52 cards in the order the `Deck` constructor pushes them
(outer loop over suits, inner loop over ranks). -/
def fullDeckCards : List Card :=
  (SUITS.map (fun s => RANKS.map (fun r => Card.mk r s))).flatten

/-- Insert a card into a list that is sorted descending by rank value,
keeping equal keys in their original relative order. -/
def insertDesc (x : Card) : List Card → List Card
  | [] => [x]
  | y :: ys =>
    if rankValue y.rank < rankValue x.rank then x :: y :: ys
    else y :: insertDesc x ys

/-- Model of the JS `sort((a, b) => RANK_VALUES[b.rank] - RANK_VALUES[a.rank])`:
stable sort in descending rank-value order. -/
def sortByRankDesc : List Card → List Card
  | [] => []
  | x :: xs => insertDesc x (sortByRankDesc xs)

/-- Insert a natural number into a descending-sorted list (stable). -/
def insertNatDesc (x : Nat) : List Nat → List Nat
  | [] => [x]
  | y :: ys => if y < x then x :: y :: ys else y :: insertNatDesc x ys

/-- Model of `sort((a, b) => b - a)` on an array of numbers. -/
def sortNatDesc : List Nat → List Nat
  | [] => []
  | x :: xs => insertNatDesc x (sortNatDesc xs)

/-- Helper for first-occurrence deduplication: `seen` holds the values
already emitted. -/
def jsDedupAux {α : Type} [DecidableEq α] (seen : List α) : List α → List α
  | [] => []
  | x :: xs =>
    if x ∈ seen then jsDedupAux seen xs else x :: jsDedupAux (x :: seen) xs

/-- Model of `[...new Set(xs)]`: removes duplicates keeping the first
occurrence of each value, preserving order. -/
def jsDedup {α : Type} [DecidableEq α] (l : List α) : List α :=
  jsDedupAux [] l

/-- Number of cards in `hand` having rank `r` (an entry of the `counts` object of the source). -/
def countRank (hand : List Card) (r : Rank) : Nat :=
  hand.countP (fun c => decide (c.rank = r))

/-- Number of cards in `hand` having suit `s` (an entry of the `suits` object of the source). -/
def countSuit (hand : List Card) (s : Suit) : Nat :=
  hand.countP (fun c => decide (c.suit = s))

/-- The distinct ranks present in `hand`, in first-occurrence order; this
is `Object.keys(counts)` up to ordering, which the source never relies on
(it only searches for a unique key or takes a maximum). -/
def ranksIn (hand : List Card) : List Rank :=
  jsDedup (hand.map Card.rank)

/-- Scan for five consecutive descending-by-one values, returning the first
(hence highest) window top value; models the straight-detection loop of
`evaluate5` over `uniqueRanks`. -/
def findStraightHigh : List Nat → Option Nat
  | a :: b :: c :: d :: e :: rest =>
    if a - 1 = b ∧ b - 1 = c ∧ c - 1 = d ∧ d - 1 = e then some a
    else findStraightHigh (b :: c :: d :: e :: rest)
  | _ => none

/-- Wheel test of `evaluate5`: the value list contains 14, 5, 4, 3 and 2. -/
def hasWheel (l : List Nat) : Bool :=
  decide (14 ∈ l ∧ 5 ∈ l ∧ 4 ∈ l ∧ 3 ∈ l ∧ 2 ∈ l)

/-- Result of hand evaluation: a category (0 to 8; the fold in
`evaluateHand` starts from -1, hence an integer) and the tie-break value
vector. Entries are `Option Nat` because the source stores results of
`Array.prototype.find`, which can be `undefined`. -/
structure EvalResult where
  category : Int
  values : List (Option Nat)
deriving DecidableEq, Repr

/-- The highest-value rank in `hand` whose count satisfies `p`, or `none`;
models the source loops that scan `Object.keys(counts)` keeping the best
qualifying rank (used for trips). -/
def bestRankWith (hand : List Card) (p : Nat → Bool) : Option Rank :=
  (ranksIn hand).foldl
    (fun acc r =>
      if p (countRank hand r) then
        match acc with
        | none => some r
        | some t => if rankValue t < rankValue r then some r else acc
      else acc)
    none

/-- The highest-value rank different from `trips` with at least two cards,
or `none`; models the pair-search loop of the full-house case. -/
def bestPairRank (hand : List Card) (trips : Rank) : Option Rank :=
  (ranksIn hand).foldl
    (fun acc r =>
      if r ≠ trips ∧ 2 ≤ countRank hand r then
        match acc with
        | none => some r
        | some t => if rankValue t < rankValue r then some r else acc
      else acc)
    none

/-- Straight-flush detection inside `evaluate5`: given the hand (sorted
descending) and the flush suit, look for a straight among the flush cards,
including the wheel. Returns the straight-flush high card if found. -/
def straightFlushHigh (hand : List Card) (flushSuit : Suit) : Option Nat :=
  let flushCards := hand.filter (fun c => decide (c.suit = flushSuit))
  let uniq := sortNatDesc (jsDedup (flushCards.map (fun c => rankValue c.rank)))
  match findStraightHigh uniq with
  | some h => some h
  | none => if hasWheel uniq then some 5 else none

/-- Faithful model of `evaluate5` of src/app.js: evaluate a 5-card hand,
returning its category and tie-break vector. -/
def evaluate5 (hand0 : List Card) : EvalResult :=
  let hand := sortByRankDesc hand0
  let values := hand.map (fun c => rankValue c.rank)
  let isFlush := SUITS.any (fun s => decide (5 ≤ countSuit hand s))
  let uniqueRanks := jsDedup values
  -- straight detection including the wheel
  let straightHigh? : Option Nat :=
    match findStraightHigh uniqueRanks with
    | some h => some h
    | none => if hasWheel uniqueRanks then some 5 else none
  -- straight flush: only returns when an actual straight exists in the
  -- flush suit; otherwise evaluation falls through to the other cases
  let sf : Option EvalResult :=
    if isFlush ∧ straightHigh?.isSome then
      match SUITS.find? (fun s => decide (5 ≤ countSuit hand s)) with
      | some fs =>
        match straightFlushHigh hand fs with
        | some h => some ⟨8, [some h]⟩
        | none => none
      | none => none
    else none
  match sf with
  | some r => r
  | none =>
    -- four of a kind
    match (ranksIn hand).find? (fun r => decide (countRank hand r = 4)) with
    | some q =>
      let kicker := values.find? (fun v => decide (v ≠ rankValue q))
      ⟨7, [some (rankValue q), kicker]⟩
    | none =>
      let tripsRank := bestRankWith hand (fun n => decide (n = 3))
      -- full house
      match tripsRank with
      | some t =>
        match bestPairRank hand t with
        | some p => ⟨6, [some (rankValue t), some (rankValue p)]⟩
        | none =>
          evaluate5Rest hand values isFlush straightHigh? tripsRank
      | none =>
        evaluate5Rest hand values isFlush straightHigh? tripsRank
where
  /-- The cases of `evaluate5` below full house: flush, straight, trips,
  two pair, one pair, high card. -/
  evaluate5Rest (hand : List Card) (values : List Nat) (isFlush : Bool)
      (straightHigh? : Option Nat) (tripsRank : Option Rank) : EvalResult :=
    if isFlush then
      let flushCards :=
        match SUITS.find? (fun s => decide (5 ≤ countSuit hand s)) with
        | some fs => sortByRankDesc (hand.filter (fun c => decide (c.suit = fs)))
        | none => []
      let top := (flushCards.take 5).map (fun c => rankValue c.rank)
      ⟨5, top.map some⟩
    else
      match straightHigh? with
      | some h => ⟨4, [some h]⟩
      | none =>
        match tripsRank with
        | some t =>
          let kickers := values.filter (fun v => decide (v ≠ rankValue t))
          ⟨3, some (rankValue t) :: (kickers.take 2).map some⟩
        | none =>
          let pairs :=
            sortNatDesc (((ranksIn hand).filter
              (fun r => decide (countRank hand r = 2))).map rankValue)
          match pairs with
          | hp :: lp :: _ =>
            let kickerVal := values.find? (fun v => decide (v ≠ hp ∧ v ≠ lp))
            ⟨2, [some hp, some lp, kickerVal]⟩
          | [pv] =>
            let kickers := (values.filter (fun v => decide (v ≠ pv))).take 3
            ⟨1, some pv :: kickers.map some⟩
          | [] => ⟨0, (values.take 5).map some⟩

/-- JS comparison `a > b` lifted to possibly-undefined values: any
comparison involving `undefined` is false. -/
def jsGtO : Option Nat → Option Nat → Bool
  | some a, some b => decide (b < a)
  | _, _ => false

/-- JS comparison `a < b` lifted to possibly-undefined values. -/
def jsLtO : Option Nat → Option Nat → Bool
  | some a, some b => decide (a < b)
  | _, _ => false

/-- The kicker-comparison loop of `evaluateHand` (lines 101 to 115 in
src/app.js): scan the positions of the first vector, returning true at the
first position where it beats the second vector, false at the first
position where it loses (missing positions of the second vector are JS
`undefined`, which compares false both ways). -/
def isBetterVals : List (Option Nat) → List (Option Nat) → Bool
  | [], _ => false
  | a :: as, [] =>
    if jsGtO a none then true
    else if jsLtO a none then false
    else isBetterVals as []
  | a :: as, b :: bs =>
    if jsGtO a b then true
    else if jsLtO a b then false
    else isBetterVals as bs

/-- The lexicographic value-comparison loop of `compareHands`: 1 if the
first vector wins, -1 if it loses, 0 otherwise. Indices past the end of
the second vector read JS `undefined`. -/
def compareVals : List (Option Nat) → List (Option Nat) → Int
  | [], _ => 0
  | a :: as, [] =>
    if jsGtO a none then 1
    else if jsLtO a none then (-1)
    else compareVals as []
  | a :: as, b :: bs =>
    if jsGtO a b then 1
    else if jsLtO a b then (-1)
    else compareVals as bs

/-- All 5-element combinations of a list, in the order produced by the
five nested index loops of `evaluateHand` (indices strictly increasing,
lexicographic). -/
def combs : Nat → List Card → List (List Card)
  | 0, _ => [[]]
  | _ + 1, [] => []
  | k + 1, x :: xs => ((combs k xs).map (fun c => x :: c)) ++ combs (k + 1) xs

/-- Faithful model of `evaluateHand` of src/app.js: evaluate every 5-card
combination and keep the best by category, then by the kicker loop. The
fold starts from the sentinel `{category: -1, values: []}`. -/
def evaluateHand (cards : List Card) : EvalResult :=
  let sorted := sortByRankDesc cards
  (combs 5 sorted).foldl
    (fun best hand =>
      let r := evaluate5 hand
      if best.category < r.category then r
      else if r.category = best.category ∧ isBetterVals r.values best.values then r
      else best)
    ⟨-1, []⟩

/-- Faithful model of `compareHands` of src/app.js: 1 if `handA` plus the
board beats `handB` plus the board, -1 if it loses, 0 on a tie. -/
def compareHands (handA handB board : List Card) : Int :=
  let evalA := evaluateHand (handA ++ board)
  let evalB := evaluateHand (handB ++ board)
  if evalB.category < evalA.category then 1
  else if evalA.category < evalB.category then (-1)
  else compareVals evalA.values evalB.values

/-- A deck is the `cards` array of the `Deck` class of the source; `deal()` pops
from the end of the array. -/
structure Deck where
  cards : List Card
deriving DecidableEq, Repr

/-- Faithful model of `Deck.prototype.deal` (src/app.js lines 59 to 61):
`return this.cards.pop()`. Popping an empty array returns JS `undefined`
(modelled `none`) and leaves the array empty; otherwise the last element
is removed and returned. There is no error guard. -/
def Deck.deal (d : Deck) : Option Card × Deck :=
  match d.cards.getLast? with
  | none => (none, d)
  | some c => (some c, ⟨d.cards.dropLast⟩)

/-- The `remaining` pool built by `computeEquity` (src/app.js line 291):
the current cards of the deck that was passed in, minus the hole cards of the hero, minus the known board. JS `includes` uses reference equality there;
since the live deck holds each card object at most once and dealt cards
are removed from it, value equality coincides on all reachable calls. -/
def equityRemaining (deckCards playerCards knownBoard : List Card) : List Card :=
  deckCards.filter (fun c => decide (c ∉ playerCards ∧ c ∉ knownBoard))

/-- Faithful model of `startingHandStrength` (src/app.js lines 901 to 921),
with JS floating-point arithmetic modelled exactly over the rationals. -/
def startingHandStrength (c1 c2 : Card) : ℚ :=
  let r1 : ℚ := rankValue c1.rank
  let r2 : ℚ := rankValue c2.rank
  let suited := c1.suit = c2.suit
  if r1 = r2 then r1 / 14 * 0.8 + 0.2
  else
    let highCard := max r1 r2
    let lowCard := min r1 r2
    let score1 := 0 + highCard / 14 * 0.5
    let score2 := score1 + lowCard / 14 * 0.1
    let score3 := if suited then score2 + 0.1 else score2
    let diff := |r1 - r2|
    let score4 :=
      if diff = 1 then score3 + 0.1
      else if diff = 2 then score3 + 0.05
      else score3
    min score4 1

/-- The two seats. -/
inductive Who where
  | player | opponent
deriving DecidableEq, Repr

/-- The other seat (the ternary turn switch of the source). -/
def Who.other : Who → Who
  | .player => .opponent
  | .opponent => .player

/-- The `gameState.stage` strings of src/app.js. -/
inductive Stage where
  | preflop | flop | turn | river | showdown
deriving DecidableEq, Repr

/-- The mutable state of one player (hole cards, stack, current-round bet,
folded flag), mirroring the player objects of src/app.js. -/
structure PlayerSt where
  cards : List Card
  stack : ℚ
  currentBet : ℚ
  folded : Bool
deriving DecidableEq, Repr

/-- The engine-relevant fields of the `gameState` object of the source. UI fields
(`awaitingUser`, message text) and the `actionLog` are presentation or
reporting concerns with no effect on chips, stage or turn, and are
omitted. -/
structure GState where
  deck : Deck
  board : List Card
  pot : ℚ
  stage : Stage
  button : Who
  turn : Who
  player : PlayerSt
  opponent : PlayerSt
deriving DecidableEq, Repr

/-- The `bigBlind` of the source (`initGame` fixes `bb = 100`). -/
def bigBlind : ℚ := 100

/-- Faithful model of `bet(playerObj, amount)` (src/app.js lines 485 to
490): cap the amount at the stack, move it from stack to current bet and
pot. Returns the updated player together with the updated pot. -/
def bet (p : PlayerSt) (pot amount : ℚ) : PlayerSt × ℚ :=
  let amt := min amount p.stack
  (⟨p.cards, p.stack - amt, p.currentBet + amt, p.folded⟩, pot + amt)

/-- Apply `bet` to the player seat of a game state. -/
def betPlayer (s : GState) (amount : ℚ) : GState :=
  let r := bet s.player s.pot amount
  {s with player := r.1, pot := r.2}

/-- Apply `bet` to the opponent seat of a game state. -/
def betOpponent (s : GState) (amount : ℚ) : GState :=
  let r := bet s.opponent s.pot amount
  {s with opponent := r.1, pot := r.2}

/-- Faithful model of `postBlinds` (src/app.js lines 473 to 483): the
button posts the small blind (half the big blind), the other seat posts
the big blind. -/
def postBlinds (s : GState) : GState :=
  let sb := bigBlind / 2
  if s.button = .player then betOpponent (betPlayer s sb) bigBlind
  else betPlayer (betOpponent s sb) bigBlind

/-- Deal one card from the game deck (`gameState.deck.deal()`). -/
def dealOne (s : GState) : Option Card × GState :=
  let r := s.deck.deal
  (r.1, {s with deck := r.2})

/-- Push a deal result onto the board. The source pushes the raw `deal()`
result; a deal from an exhausted deck would push `undefined`, which cannot
occur within a hand (at most 12 of 52 cards are used), so it is modelled
as appending the dealt card when present. -/
def pushBoard (s : GState) (oc : Option Card) : GState :=
  {s with board := s.board ++ oc.toList}

/-- Faithful model of `dealFlop` (src/app.js lines 661 to 670): burn one
card, deal three board cards, set the stage to flop. -/
def dealFlop (s : GState) : GState :=
  let s1 := (dealOne s).2
  let r2 := dealOne s1
  let s2 := pushBoard r2.2 r2.1
  let r3 := dealOne s2
  let s3 := pushBoard r3.2 r3.1
  let r4 := dealOne s3
  let s4 := pushBoard r4.2 r4.1
  {s4 with stage := .flop}

/-- Faithful model of `dealTurn` (src/app.js lines 671 to 677): burn one
card, deal one board card, set the stage to turn. -/
def dealTurn (s : GState) : GState :=
  let s1 := (dealOne s).2
  let r2 := dealOne s1
  let s2 := pushBoard r2.2 r2.1
  {s2 with stage := .turn}

/-- Faithful model of `dealRiver` (src/app.js lines 678 to 684). -/
def dealRiver (s : GState) : GState :=
  let s1 := (dealOne s).2
  let r2 := dealOne s1
  let s2 := pushBoard r2.2 r2.1
  {s2 with stage := .river}

/-- Faithful model of `goToShowdown` (src/app.js lines 686 to 722): set
the stage to showdown, decide the winner (fold beats comparison), award
the pot to the stack of the winner, or split it in half on a tie. Note the
`pot` field itself is left untouched by the source. -/
def goToShowdown (s : GState) : GState :=
  let s1 := {s with stage := Stage.showdown}
  if s1.player.folded then
    {s1 with opponent := {s1.opponent with stack := s1.opponent.stack + s1.pot}}
  else if s1.opponent.folded then
    {s1 with player := {s1.player with stack := s1.player.stack + s1.pot}}
  else
    let cmp := compareHands s1.player.cards s1.opponent.cards s1.board
    if 0 < cmp then
      {s1 with player := {s1.player with stack := s1.player.stack + s1.pot}}
    else if cmp < 0 then
      {s1 with opponent := {s1.opponent with stack := s1.opponent.stack + s1.pot}}
    else
      let half := s1.pot / 2
      {s1 with
        player := {s1.player with stack := s1.player.stack + half},
        opponent := {s1.opponent with stack := s1.opponent.stack + half}}

/-- The state-relevant part of `nextAction` (src/app.js lines 552 to 574):
if somebody has folded, go to showdown; otherwise the function only
dispatches control (UI prompt or AI timer) without changing state. -/
def nextAction (s : GState) : GState :=
  if s.player.folded || s.opponent.folded then goToShowdown s else s

/-- The stage-advance dispatch inside `advanceOrSwitch` (src/app.js lines
642 to 650). -/
def advanceStageStep (s : GState) : GState :=
  match s.stage with
  | .preflop => dealFlop s
  | .flop => dealTurn s
  | .turn => dealRiver s
  | .river => goToShowdown s
  | .showdown => s

/-- Faithful model of `advanceOrSwitch` (src/app.js lines 635 to 659): if
the two current bets are equal, reset them, advance the stage, set the
turn with the ternary `(button === player) ? player : opponent`,
and run `nextAction`; otherwise switch the turn. -/
def advanceOrSwitch (s : GState) : GState :=
  if s.player.currentBet = s.opponent.currentBet then
    let s1 := {s with
      player := {s.player with currentBet := 0},
      opponent := {s.opponent with currentBet := 0}}
    let s2 := advanceStageStep s1
    nextAction {s2 with turn := if s.button = .player then Who.player else Who.opponent}
  else
    nextAction {s with turn := s.turn.other}

/-- The user action kinds accepted by `userAction`. -/
inductive UAct where
  | fold | check | allin | raise (amt : ℚ)
deriving DecidableEq

/-- The call amount owed by the user (src/app.js line 581). -/
def userToCall (s : GState) : ℚ :=
  max 0 (s.opponent.currentBet - s.player.currentBet)

/-- The check-or-call part of `userAction` (src/app.js lines 590 to 598):
stake the difference when one is owed, otherwise a no-op check. -/
def userCallApplied (s : GState) : GState :=
  if 0 < userToCall s then betPlayer s (userToCall s) else s

/-- Faithful model of `userAction` (src/app.js lines 576 to 633). Fold
goes straight to showdown; check or call runs `advanceOrSwitch`; all-in
and raise stake chips, hand the turn to the opponent and run `nextAction`
without any bets-equal check. -/
def userAction (s : GState) (a : UAct) : GState :=
  match a with
  | .fold => goToShowdown {s with player := {s.player with folded := true}}
  | .check => advanceOrSwitch (userCallApplied s)
  | .allin => nextAction {betPlayer s s.player.stack with turn := Who.opponent}
  | .raise amt =>
    nextAction {betPlayer s (userToCall s + amt) with turn := Who.opponent}

/-- The opponent action kinds executed at the bottom of `aiAction`. The
policy heuristics that choose among them are randomized and are abstracted
into this choice parameter; the claims concern the execution part. -/
inductive AAct where
  | fold | check | allin | raise (amt : ℚ)
deriving DecidableEq

/-- The call amount owed by the opponent (src/app.js line 730). -/
def aiToCall (s : GState) : ℚ :=
  max 0 (s.player.currentBet - s.opponent.currentBet)

/-- The chip-staking part of `aiAction` (src/app.js lines 852 to 870). -/
def aiApply (s : GState) : AAct → GState
  | .fold => {s with opponent := {s.opponent with folded := true}}
  | .check => if 0 < aiToCall s then betOpponent s (aiToCall s) else s
  | .allin => betOpponent s s.opponent.stack
  | .raise amt => betOpponent s (aiToCall s + amt)

/-- The post-action dispatch of `aiAction` (src/app.js lines 875 to 895):
if both current bets are equal, reset them and advance the stage — with an
early return at the river that skips the turn assignment — otherwise hand
the turn to the player. -/
def aiAdvance (s : GState) : GState :=
  if s.player.currentBet = s.opponent.currentBet then
    let s1 := {s with
      player := {s.player with currentBet := 0},
      opponent := {s.opponent with currentBet := 0}}
    if s1.stage = Stage.river then goToShowdown s1
    else
      let s2 :=
        match s1.stage with
        | .preflop => dealFlop s1
        | .flop => dealTurn s1
        | .turn => dealRiver s1
        | _ => s1
      nextAction {s2 with turn := if s.button = .player then Who.player else Who.opponent}
  else
    nextAction {s with turn := Who.player}

/-- Faithful model of the execution part of `aiAction` (src/app.js lines
850 to 896), with the chosen action as a parameter. -/
def aiAction (s : GState) (a : AAct) : GState :=
  match a with
  | .fold => goToShowdown (aiApply s .fold)
  | a => aiAdvance (aiApply s a)

/-- Deal the four hole cards of `startHand` (two to the player, then two
to the opponent, each drawn from the end of the deck). -/
def dealHole (s : GState) : GState :=
  let r1 := dealOne s
  let r2 := dealOne r1.2
  let s2 := {r2.2 with player := {r2.2.player with cards := r1.1.toList ++ r2.1.toList}}
  let r3 := dealOne s2
  let r4 := dealOne r3.2
  {r4.2 with opponent := {r4.2.opponent with cards := r3.1.toList ++ r4.1.toList}}

/-- Faithful model of `startHand` (src/app.js lines 448 to 471) given the
already-shuffled deck order, the button of the previous hand and the carried
stacks: reset the board, deal hole cards, clear bets, folded flags and
pot, swap the button, post blinds, set the stage to preflop and give the
first turn to the non-button seat. -/
def startHand (shuffled : List Card) (prevButton : Who) (pStack oStack : ℚ) : GState :=
  let s0 : GState := {
    deck := ⟨shuffled⟩
    board := []
    pot := 0
    stage := Stage.preflop
    button := prevButton
    turn := Who.player
    player := ⟨[], pStack, 0, false⟩
    opponent := ⟨[], oStack, 0, false⟩ }
  let s1 := dealHole s0
  let s2 := {s1 with button := if s1.button = Who.player then Who.opponent else Who.player}
  let s3 := postBlinds s2
  {s3 with
    stage := Stage.preflop
    turn := if s2.button = Who.player then Who.opponent else Who.player}

/-- An action by either seat, for reasoning about whole hands. -/
inductive Act where
  | user (a : UAct)
  | ai (a : AAct)

/-- Apply one action to the state. -/
def applyAct (s : GState) : Act → GState
  | .user a => userAction s a
  | .ai a => aiAction s a

/-- States reachable from `s0` by any sequence of actions taken while the
hand is still running (stage not yet showdown). This is a superset of the
sequences reachable under the turn gating of the UI, so invariants proved over
it cover every valid play sequence. -/
inductive Reach (s0 : GState) : GState → Prop
  | refl : Reach s0 s0
  | step {s : GState} (a : Act) :
      Reach s0 s → s.stage ≠ Stage.showdown → Reach s0 (applyAct s a)

/-- Total chips in flight: pot plus both stacks. -/
def chipSum (s : GState) : ℚ :=
  s.pot + s.player.stack + s.opponent.stack

/-- Total chips in the two stacks alone. -/
def stackSum (s : GState) : ℚ :=
  s.player.stack + s.opponent.stack

/-- Modelled from the spec: the pool of unseen cards as the specification
describes it — the full 52-card set minus the hero cards minus the known
board (the code instead filters the live deck; see `equityRemaining`). -/
def specEquityPool (heroCards knownBoard : List Card) : List Card :=
  fullDeckCards.filter (fun c => decide (c ∉ heroCards ∧ c ∉ knownBoard))

/-- Modelled from the spec: the street that follows each stage when both
current bets are equal after an action. -/
def specNextStage : Stage → Stage
  | .preflop => .flop
  | .flop => .turn
  | .turn => .river
  | .river => .showdown
  | .showdown => .showdown

/-- Modelled from the spec: the number of board cards dealt on each street
transition (Preflop to Flop deals 3, Flop to Turn 1, Turn to River 1). -/
def specBoardInc : Stage → Nat
  | .preflop => 3
  | .flop => 1
  | .turn => 1
  | .river => 0
  | .showdown => 0

/-- Fixture: hand started from a fresh-ordered deck with equal stacks of
10000, previous button on the opponent, so the player holds the button. -/
def handStartEx : GState := startHand fullDeckCards Who.opponent 10000 10000

/-- Fixture: `handStartEx` after the opponent (first to act per the code)
checks behind; the pot is still 150 and it is the turn of the player. -/
def aiCheckedEx : GState := aiAction handStartEx AAct.check

/-- Fixture: `aiCheckedEx` after the player folds preflop. -/
def foldEndEx : GState := userAction aiCheckedEx UAct.fold

/-- Fixture: `aiCheckedEx` after the player calls, equalizing the bets and
triggering the preflop-to-flop transition. -/
def flopEx : GState := userAction aiCheckedEx UAct.check

/-- Fixture: hand with the opponent on the button; the player checks the
big blind option is not owed, then the opponent calls, triggering the
preflop-to-flop transition from the AI code path. -/
def flopAiEx : GState :=
  aiAction (userAction (startHand fullDeckCards Who.player 10000 10000) UAct.check) AAct.check

/-- Fixture: `aiCheckedEx` after the player raises by zero additional
chips (the raise slider of the UI starts at 0), staking exactly the call
amount and equalizing the bets. -/
def raiseZeroEx : GState := userAction aiCheckedEx (UAct.raise 0)

/-- Fixture: the ace-low wheel in mixed suits. -/
def wheelUnsuited : List Card :=
  [⟨.rA, .S⟩, ⟨.r2, .H⟩, ⟨.r3, .D⟩, ⟨.r4, .C⟩, ⟨.r5, .S⟩]

/-- Fixture: the ace-low wheel in a single suit. -/
def wheelSuited : List Card :=
  [⟨.rA, .S⟩, ⟨.r2, .S⟩, ⟨.r3, .S⟩, ⟨.r4, .S⟩, ⟨.r5, .S⟩]

/-- Fixture: a six-high straight in mixed suits. -/
def sixHighStraight : List Card :=
  [⟨.r6, .S⟩, ⟨.r2, .H⟩, ⟨.r3, .D⟩, ⟨.r4, .C⟩, ⟨.r5, .S⟩]

/-- Fixture: a river state that showdowns as an exact tie with an odd pot
of 151 chips — the board plays for both seats (broadway straight, no
flush possible). -/
def tieShowdownEx : GState :=
  { deck := ⟨[]⟩
    board := [⟨.rA, .S⟩, ⟨.rK, .H⟩, ⟨.rQ, .D⟩, ⟨.rJ, .C⟩, ⟨.rT, .S⟩]
    pot := 151
    stage := Stage.river
    button := Who.player
    turn := Who.player
    player := ⟨[⟨.r2, .H⟩, ⟨.r3, .D⟩], 100, 0, false⟩
    opponent := ⟨[⟨.r2, .C⟩, ⟨.r3, .C⟩], 200, 0, false⟩ }

/-- Fixture: a preflop state with current bets 50 and 100 and the four
hole cards already dealt from the end of a fresh-ordered deck, used to
witness the post-action advance rule at a concrete input. -/
def c4WitnessState : GState :=
  { deck := ⟨fullDeckCards.dropLast.dropLast.dropLast.dropLast⟩
    board := []
    pot := 150
    stage := Stage.preflop
    button := Who.player
    turn := Who.player
    player := ⟨[⟨.rA, .C⟩, ⟨.rK, .C⟩], 9950, 50, false⟩
    opponent := ⟨[⟨.rQ, .C⟩, ⟨.rJ, .C⟩], 9900, 100, false⟩ }

/-- Invariant carried across a hand: while the hand is running nobody is
folded and the pot plus the two stacks equals `S`; once the stage is
showdown the two stacks alone sum to `S` (the source adds the pot to the
winning stack without clearing the `pot` field). -/
def HandInv (S : ℚ) (s : GState) : Prop :=
  (s.stage ≠ Stage.showdown →
    s.player.folded = false ∧ s.opponent.folded = false ∧ chipSum s = S) ∧
  (s.stage = Stage.showdown → stackSum s = S)

theorem jsGtO_swap (a b : Option Nat) : jsGtO a b = jsLtO b a := by
  cases a <;> cases b <;> rfl

theorem jsGtO_eq_true_imp {a b : Option Nat} (h : jsGtO a b = true) :
    jsLtO a b = false := by
  cases a <;> cases b <;> simp [jsGtO, jsLtO] at *
  omega

theorem compareVals_nil_right (a : List (Option Nat)) : compareVals a [] = 0 := by
  induction a with
  | nil => rfl
  | cons x xs ih => cases x <;> simpa [compareVals, jsGtO, jsLtO] using ih

theorem compareVals_antisymm (a : List (Option Nat)) :
    ∀ b, compareVals a b = -compareVals b a := by
  induction a with
  | nil => intro b; rw [compareVals_nil_right]; rfl
  | cons x xs ih =>
    intro b
    cases b with
    | nil =>
      rw [compareVals_nil_right]
      rfl
    | cons y ys =>
      by_cases hg : jsGtO x y = true
      · have hl : jsLtO x y = false := jsGtO_eq_true_imp hg
        have hg2 : jsGtO y x = false := by rw [jsGtO_swap]; exact hl
        have hl2 : jsLtO y x = true := by rw [← jsGtO_swap]; exact hg
        simp [compareVals, hg, hl, hg2, hl2]
      · by_cases hl : jsLtO x y = true
        · have hg2 : jsGtO y x = true := by rw [jsGtO_swap]; exact hl
          simp [compareVals, hg, hl, hg2]
        · have hg2 : jsGtO y x = false := by
            rw [jsGtO_swap]; exact Bool.of_not_eq_true hl
          have hl2 : jsLtO y x = false := by
            rw [← jsGtO_swap]; exact Bool.of_not_eq_true hg
          simp only [compareVals, hg, hl, hg2, hl2, Bool.false_eq_true, if_false]
          exact ih ys

/-- C7 (confirmed): for every pair of hole-card lists and every board,
`compareHands` is antisymmetric — the comparison of A against B is the
negation of the comparison of B against A; in particular it reports a tie
in one direction exactly when it does in the other. This holds for all
inputs, so in particular for 2-card hands and 5-card boards over distinct
cards. -/
theorem compareHands_antisymm (A B board : List Card) :
    compareHands A B board = -compareHands B A board ∧
    (compareHands A B board = 0 ↔ compareHands B A board = 0) := by
  have key : ∀ x y : EvalResult,
      (if y.category < x.category then (1 : Int)
        else if x.category < y.category then (-1)
        else compareVals x.values y.values) =
      -(if x.category < y.category then (1 : Int)
        else if y.category < x.category then (-1)
        else compareVals y.values x.values) := by
    intro x y
    by_cases h1 : y.category < x.category
    · have h2 : ¬ x.category < y.category := by omega
      simp [h1, h2]
    · by_cases h2 : x.category < y.category
      · simp [h1, h2]
      · simp only [h1, h2, if_false]
        exact compareVals_antisymm x.values y.values
  have h : compareHands A B board = -compareHands B A board :=
    key (evaluateHand (A ++ board)) (evaluateHand (B ++ board))
  refine ⟨h, ?_⟩
  constructor <;> intro h0 <;> omega

set_option maxRecDepth 200000 in
/-- C6 (confirmed): the ace-low wheel in mixed suits evaluates to category
4 (straight) with tie-break vector holding 5; the suited wheel evaluates
to category 8 (straight flush) with tie-break 5; and the wheel vector
compares below the vector of a six-high straight of the same category
under the value-comparison loop of `compareHands`. -/
theorem wheel_evaluation :
    evaluate5 wheelUnsuited = ⟨4, [some 5]⟩ ∧
    evaluate5 wheelSuited = ⟨8, [some 5]⟩ ∧
    evaluate5 sixHighStraight = ⟨4, [some 6]⟩ ∧
    (evaluate5 wheelUnsuited).category = (evaluate5 sixHighStraight).category ∧
    compareVals (evaluate5 wheelUnsuited).values (evaluate5 sixHighStraight).values = -1 := by
  decide

/-- C5 (corrected, counterexample): dealing from an empty deck does not
report any error — the source `deal()` is a bare `Array.prototype.pop()`,
which on an empty array returns the undefined value (modelled `none`) and
leaves the deck unchanged, refuting the claim that a `DeckExhausted`
error is reported rather than an undefined value being returned. -/
theorem deal_empty_returns_undefined :
    Deck.deal ⟨[]⟩ = (none, (⟨[]⟩ : Deck)) := by
  decide

/-- C5 (amended): `deal()` on an empty deck returns the undefined value
and leaves the deck empty, with no `DeckExhausted` guard anywhere in the
code; on a non-empty deck it removes and returns exactly one card from
the end of the card array. -/
theorem deal_pop_behavior (d : Deck) :
    (d.cards = [] → d.deal = (none, d)) ∧
    (d.cards ≠ [] →
      ∃ c, d.deal = (some c, ⟨d.cards.dropLast⟩) ∧
        d.cards = d.cards.dropLast ++ [c]) := by
  obtain ⟨cards⟩ := d
  constructor
  · intro h
    simp only at h
    subst h
    rfl
  · intro h
    simp only at h
    rcases List.eq_nil_or_concat cards with hnil | ⟨L, c, rfl⟩
    · exact absurd hnil h
    · refine ⟨c, ?_, ?_⟩
      · simp [Deck.deal, List.getLast?_concat, List.dropLast_concat]
      · simp [List.dropLast_concat]

/-- Witness for C5: the two branches of `deal_pop_behavior` evaluated on a
concrete two-card deck. -/
theorem deal_pop_behavior_witness :
    (Deck.mk [⟨.rA, .S⟩, ⟨.rK, .D⟩]).cards ≠ [] ∧
    ∃ c, (Deck.mk [⟨.rA, .S⟩, ⟨.rK, .D⟩]).deal =
        (some c, ⟨(Deck.mk [⟨.rA, .S⟩, ⟨.rK, .D⟩]).cards.dropLast⟩) ∧
      (Deck.mk [⟨.rA, .S⟩, ⟨.rK, .D⟩]).cards =
        (Deck.mk [⟨.rA, .S⟩, ⟨.rK, .D⟩]).cards.dropLast ++ [c] :=
  ⟨by decide, (deal_pop_behavior ⟨[⟨.rA, .S⟩, ⟨.rK, .D⟩]⟩).2 (by decide)⟩

set_option maxRecDepth 200000 in
/-- C3 (corrected, counterexample): immediately after dealing the hole
cards, the pool the equity estimator samples from is the 48 remaining
cards of the live deck, not the 50-card set the claim specifies (fresh
52-card deck minus the 2 hero cards minus the empty board) — the live
deck no longer holds the 4 dealt hole cards, so the pool also excludes
the hidden cards of the other player. -/
theorem equity_pool_not_fresh :
    equityRemaining handStartEx.deck.cards handStartEx.opponent.cards handStartEx.board ≠
      specEquityPool handStartEx.opponent.cards handStartEx.board ∧
    (equityRemaining handStartEx.deck.cards handStartEx.opponent.cards
      handStartEx.board).length = 48 ∧
    (specEquityPool handStartEx.opponent.cards handStartEx.board).length = 50 := by
  decide

/-- C3 (amended): the pool of unseen cards the equity computation samples
from is the current card list of the deck passed to it (at both call
sites, the live dealing deck) filtered to exclude the hero hole cards and
the known board; a card belongs to the pool exactly when it is currently
in that deck and is neither a hero card nor a board card. -/
theorem equityRemaining_mem (deckCards heroCards knownBoard : List Card) (c : Card) :
    c ∈ equityRemaining deckCards heroCards knownBoard ↔
      c ∈ deckCards ∧ c ∉ heroCards ∧ c ∉ knownBoard := by
  simp [equityRemaining]

/-- C10 (confirmed): on an exact showdown tie with neither seat folded,
each stack is increased by exactly `pot / 2` with no remainder handling;
the two gains sum to the pot, and when the pot is odd (`2k+1` chips) each
gain is the fractional amount `k + 1/2`, which is not an integer number
of chips. -/
theorem tie_splits_pot_in_half (s : GState) (k : ℕ)
    (hpf : s.player.folded = false) (hof : s.opponent.folded = false)
    (hcmp : compareHands s.player.cards s.opponent.cards s.board = 0)
    (hpot : s.pot = 2 * k + 1) :
    (goToShowdown s).player.stack = s.player.stack + s.pot / 2 ∧
    (goToShowdown s).opponent.stack = s.opponent.stack + s.pot / 2 ∧
    ((goToShowdown s).player.stack - s.player.stack) +
      ((goToShowdown s).opponent.stack - s.opponent.stack) = s.pot ∧
    s.pot / 2 = (k : ℚ) + 1 / 2 ∧
    ¬ ∃ n : ℤ, (s.pot / 2 : ℚ) = (n : ℚ) := by
  have hshow : goToShowdown s =
      { s with
        stage := Stage.showdown
        player := {s.player with stack := s.player.stack + s.pot / 2}
        opponent := {s.opponent with stack := s.opponent.stack + s.pot / 2} } := by
    unfold goToShowdown
    simp [hpf, hof, hcmp]
  have hhalf : s.pot / 2 = (k : ℚ) + 1 / 2 := by
    rw [hpot]; ring
  refine ⟨by rw [hshow], by rw [hshow], by rw [hshow]; simp, hhalf, ?_⟩
  rintro ⟨n, hn⟩
  rw [hhalf] at hn
  have h2 : (2 * k + 1 : ℚ) = 2 * n := by linarith
  have h3 : (2 * (k : ℤ) + 1 : ℤ) = 2 * n := by exact_mod_cast h2
  omega

theorem betPlayer_chipSum (s : GState) (a : ℚ) :
    chipSum (betPlayer s a) = chipSum s := by
  simp only [betPlayer, bet, chipSum]
  ring

theorem betOpponent_chipSum (s : GState) (a : ℚ) :
    chipSum (betOpponent s a) = chipSum s := by
  simp only [betOpponent, bet, chipSum]
  ring

theorem goToShowdown_stage (s : GState) :
    (goToShowdown s).stage = Stage.showdown := by
  unfold goToShowdown
  dsimp only
  split_ifs <;> rfl

theorem goToShowdown_stackSum (s : GState) :
    stackSum (goToShowdown s) = chipSum s := by
  unfold goToShowdown
  dsimp only
  split_ifs <;> simp only [stackSum, chipSum] <;> ring

theorem goToShowdown_fields (s : GState) :
    (goToShowdown s).board = s.board ∧
    (goToShowdown s).player.currentBet = s.player.currentBet ∧
    (goToShowdown s).opponent.currentBet = s.opponent.currentBet ∧
    (goToShowdown s).player.folded = s.player.folded ∧
    (goToShowdown s).opponent.folded = s.opponent.folded ∧
    (goToShowdown s).pot = s.pot := by
  unfold goToShowdown
  dsimp only
  split_ifs <;> exact ⟨rfl, rfl, rfl, rfl, rfl, rfl⟩

theorem nextAction_id (s : GState)
    (hp : s.player.folded = false) (ho : s.opponent.folded = false) :
    nextAction s = s := by
  simp [nextAction, hp, ho]

theorem handInv_goToShowdown (S : ℚ) (Y : GState) (hc : chipSum Y = S) :
    HandInv S (goToShowdown Y) :=
  ⟨fun hne => absurd (goToShowdown_stage Y) hne,
   fun _ => by rw [goToShowdown_stackSum Y, hc]⟩

theorem handInv_showdown_next (S : ℚ) (Y : GState) (t : Who)
    (hp : Y.player.folded = false) (ho : Y.opponent.folded = false)
    (hc : chipSum Y = S) :
    HandInv S (nextAction {goToShowdown Y with turn := t}) := by
  have hf := goToShowdown_fields Y
  have h1 : ({goToShowdown Y with turn := t} : GState).player.folded = false := by
    show (goToShowdown Y).player.folded = false
    rw [hf.2.2.2.1]
    exact hp
  have h2 : ({goToShowdown Y with turn := t} : GState).opponent.folded = false := by
    show (goToShowdown Y).opponent.folded = false
    rw [hf.2.2.2.2.1]
    exact ho
  rw [nextAction_id _ h1 h2]
  refine ⟨fun hne => absurd (goToShowdown_stage Y) hne, fun _ => ?_⟩
  show stackSum {goToShowdown Y with turn := t} = S
  rw [show stackSum {goToShowdown Y with turn := t} = stackSum (goToShowdown Y) from rfl,
    goToShowdown_stackSum Y, hc]

theorem handInv_nextAction (S : ℚ) (X : GState)
    (hp : X.player.folded = false) (ho : X.opponent.folded = false)
    (hs : X.stage ≠ Stage.showdown) (hc : chipSum X = S) :
    HandInv S (nextAction X) := by
  rw [nextAction_id X hp ho]
  exact ⟨fun _ => ⟨hp, ho, hc⟩, fun h => absurd h hs⟩

theorem advanceOrSwitch_inv (S : ℚ) (s : GState)
    (hp : s.player.folded = false) (ho : s.opponent.folded = false)
    (hs : s.stage ≠ Stage.showdown) (hc : chipSum s = S) :
    HandInv S (advanceOrSwitch s) := by
  unfold advanceOrSwitch
  by_cases heq : s.player.currentBet = s.opponent.currentBet
  · rw [if_pos heq]
    cases hstage : s.stage
    · exact handInv_nextAction S _ hp ho (fun h => Stage.noConfusion h) hc
    · exact handInv_nextAction S _ hp ho (fun h => Stage.noConfusion h) hc
    · exact handInv_nextAction S _ hp ho (fun h => Stage.noConfusion h) hc
    · exact handInv_showdown_next S _ _ hp ho hc
    · exact absurd hstage hs
  · rw [if_neg heq]
    exact handInv_nextAction S _ hp ho hs hc

set_option maxRecDepth 200000 in
/-- Witness for C10: `tie_splits_pot_in_half` applied to the concrete tie
fixture with pot 151. -/
theorem tie_splits_pot_in_half_witness :
    tieShowdownEx.player.folded = false ∧
    tieShowdownEx.opponent.folded = false ∧
    compareHands tieShowdownEx.player.cards tieShowdownEx.opponent.cards
      tieShowdownEx.board = 0 ∧
    tieShowdownEx.pot = 2 * (75 : ℕ) + 1 ∧
    ((goToShowdown tieShowdownEx).player.stack =
        tieShowdownEx.player.stack + tieShowdownEx.pot / 2 ∧
      (goToShowdown tieShowdownEx).opponent.stack =
        tieShowdownEx.opponent.stack + tieShowdownEx.pot / 2 ∧
      ((goToShowdown tieShowdownEx).player.stack - tieShowdownEx.player.stack) +
        ((goToShowdown tieShowdownEx).opponent.stack - tieShowdownEx.opponent.stack) =
          tieShowdownEx.pot ∧
      tieShowdownEx.pot / 2 = ((75 : ℕ) : ℚ) + 1 / 2 ∧
      ¬ ∃ n : ℤ, (tieShowdownEx.pot / 2 : ℚ) = (n : ℚ)) :=
  ⟨rfl, rfl, by decide, by norm_num [tieShowdownEx],
    tie_splits_pot_in_half tieShowdownEx 75 rfl rfl (by decide)
      (by norm_num [tieShowdownEx])⟩

theorem aiAdvance_inv (S : ℚ) (s : GState)
    (hp : s.player.folded = false) (ho : s.opponent.folded = false)
    (hs : s.stage ≠ Stage.showdown) (hc : chipSum s = S) :
    HandInv S (aiAdvance s) := by
  unfold aiAdvance
  by_cases heq : s.player.currentBet = s.opponent.currentBet
  · rw [if_pos heq]
    cases hstage : s.stage
    · dsimp only
      split
      · next hcond => exact absurd hcond (by decide)
      · exact handInv_nextAction S _ hp ho (fun h => Stage.noConfusion h) hc
    · dsimp only
      split
      · next hcond => exact absurd hcond (by decide)
      · exact handInv_nextAction S _ hp ho (fun h => Stage.noConfusion h) hc
    · dsimp only
      split
      · next hcond => exact absurd hcond (by decide)
      · exact handInv_nextAction S _ hp ho (fun h => Stage.noConfusion h) hc
    · dsimp only
      split
      · exact handInv_goToShowdown S _ hc
      · next hcond => exact absurd rfl hcond
    · exact absurd hstage hs
  · rw [if_neg heq]
    exact handInv_nextAction S _ hp ho hs hc

theorem userAction_inv (S : ℚ) (s : GState) (a : UAct)
    (hp : s.player.folded = false) (ho : s.opponent.folded = false)
    (hs : s.stage ≠ Stage.showdown) (hc : chipSum s = S) :
    HandInv S (userAction s a) := by
  cases a
  · exact handInv_goToShowdown S _ hc
  · show HandInv S (advanceOrSwitch (userCallApplied s))
    unfold userCallApplied
    split
    · exact advanceOrSwitch_inv S _ hp ho hs ((betPlayer_chipSum s _).trans hc)
    · exact advanceOrSwitch_inv S _ hp ho hs hc
  · exact handInv_nextAction S _ hp ho hs ((betPlayer_chipSum s _).trans hc)
  · exact handInv_nextAction S _ hp ho hs ((betPlayer_chipSum s _).trans hc)

theorem aiAction_inv (S : ℚ) (s : GState) (a : AAct)
    (hp : s.player.folded = false) (ho : s.opponent.folded = false)
    (hs : s.stage ≠ Stage.showdown) (hc : chipSum s = S) :
    HandInv S (aiAction s a) := by
  cases a
  · exact handInv_goToShowdown S _ hc
  · show HandInv S (aiAdvance (aiApply s AAct.check))
    dsimp only [aiApply]
    split
    · exact aiAdvance_inv S _ hp ho hs ((betOpponent_chipSum s _).trans hc)
    · exact aiAdvance_inv S _ hp ho hs hc
  · exact aiAdvance_inv S _ hp ho hs ((betOpponent_chipSum s _).trans hc)
  · exact aiAdvance_inv S _ hp ho hs ((betOpponent_chipSum s _).trans hc)

theorem applyAct_inv (S : ℚ) (s : GState) (a : Act)
    (h : HandInv S s) (hs : s.stage ≠ Stage.showdown) :
    HandInv S (applyAct s a) := by
  obtain ⟨hp, ho, hc⟩ := h.1 hs
  cases a
  · exact userAction_inv S s _ hp ho hs hc
  · exact aiAction_inv S s _ hp ho hs hc

theorem reach_handInv (S : ℚ) (s0 s : GState)
    (h0 : HandInv S s0) (h : Reach s0 s) : HandInv S s := by
  induction h with
  | refl => exact h0
  | step a hr hs ih => exact applyAct_inv S _ a ih hs

theorem postBlinds_chipSum (s : GState) : chipSum (postBlinds s) = chipSum s := by
  unfold postBlinds
  dsimp only
  split
  · rw [betOpponent_chipSum, betPlayer_chipSum]
  · rw [betPlayer_chipSum, betOpponent_chipSum]

theorem postBlinds_folded (s : GState) :
    (postBlinds s).player.folded = s.player.folded ∧
    (postBlinds s).opponent.folded = s.opponent.folded := by
  unfold postBlinds
  dsimp only
  split
  · exact ⟨rfl, rfl⟩
  · exact ⟨rfl, rfl⟩

theorem startHand_handInv (shuffled : List Card) (b : Who) (pS oS : ℚ) :
    HandInv (pS + oS) (startHand shuffled b pS oS) := by
  refine ⟨fun _ => ⟨?_, ?_, ?_⟩, fun h => Stage.noConfusion h⟩
  · show (postBlinds _).player.folded = false
    rw [(postBlinds_folded _).1]
    rfl
  · show (postBlinds _).opponent.folded = false
    rw [(postBlinds_folded _).2]
    rfl
  · show chipSum (postBlinds _) = pS + oS
    rw [postBlinds_chipSum]
    show (0 : ℚ) + pS + oS = pS + oS
    ring

/-- C1 (amended): from hand start through every sequence of actions,
`pot + player.stack + opponent.stack` stays equal to the starting sum
while the stage has not yet reached showdown; at the showdown resolution
the pot is added to the winning stack (or split) without clearing the
`pot` field, so from then on the two stacks alone sum to the starting
stacks (and pot plus stacks no longer does). -/
theorem chip_conservation (shuffled : List Card) (prevButton : Who) (pS oS : ℚ)
    (s : GState) (h : Reach (startHand shuffled prevButton pS oS) s) :
    (s.stage ≠ Stage.showdown →
      s.pot + s.player.stack + s.opponent.stack = pS + oS) ∧
    (s.stage = Stage.showdown →
      s.player.stack + s.opponent.stack = pS + oS) := by
  have hinv := reach_handInv (pS + oS) _ s
    (startHand_handInv shuffled prevButton pS oS) h
  exact ⟨fun hne => (hinv.1 hne).2.2, hinv.2⟩

/-- Witness for C1: `chip_conservation` applied to the freshly started
fixture hand via the reflexive reachability step. -/
theorem chip_conservation_witness :
    (handStartEx.stage ≠ Stage.showdown →
      handStartEx.pot + handStartEx.player.stack + handStartEx.opponent.stack =
        10000 + 10000) ∧
    (handStartEx.stage = Stage.showdown →
      handStartEx.player.stack + handStartEx.opponent.stack = 10000 + 10000) :=
  chip_conservation fullDeckCards Who.opponent 10000 10000 handStartEx Reach.refl

set_option maxRecDepth 4000 in
/-- C1 (counterexample): in the fixture hand (equal stacks of 10000) the
player folds preflop; the pot is awarded to the opponent but the `pot`
field keeps its value 150, so after the showdown award
`pot + player.stack + opponent.stack` is 20150, not the starting 20000 —
the conserved quantity through the pot award is the stack sum alone. -/
theorem chip_conservation_cex :
    foldEndEx.stage = Stage.showdown ∧
    foldEndEx.pot + foldEndEx.player.stack + foldEndEx.opponent.stack = 20150 ∧
    (20150 : ℚ) ≠ 10000 + 10000 := by
  norm_num [foldEndEx, aiCheckedEx, handStartEx, startHand, dealHole, dealOne,
    pushBoard, Deck.deal, postBlinds, betPlayer, betOpponent, bet, bigBlind,
    userAction, userToCall, userCallApplied, advanceOrSwitch, advanceStageStep,
    nextAction, goToShowdown, aiAction, aiApply, aiAdvance, aiToCall,
    max_def, min_def]

theorem dealHole_chipFields (s : GState) :
    (dealHole s).player.stack = s.player.stack ∧
    (dealHole s).player.currentBet = s.player.currentBet ∧
    (dealHole s).player.folded = s.player.folded ∧
    (dealHole s).opponent.stack = s.opponent.stack ∧
    (dealHole s).opponent.currentBet = s.opponent.currentBet ∧
    (dealHole s).opponent.folded = s.opponent.folded ∧
    (dealHole s).pot = s.pot ∧
    (dealHole s).stage = s.stage ∧
    (dealHole s).button = s.button ∧
    (dealHole s).turn = s.turn ∧
    (dealHole s).board = s.board :=
  ⟨rfl, rfl, rfl, rfl, rfl, rfl, rfl, rfl, rfl, rfl, rfl⟩

theorem dealFlop_player (s : GState) : (dealFlop s).player = s.player := rfl

theorem dealFlop_opponent (s : GState) : (dealFlop s).opponent = s.opponent := rfl

theorem dealFlop_pot (s : GState) : (dealFlop s).pot = s.pot := rfl

theorem dealFlop_button (s : GState) : (dealFlop s).button = s.button := rfl

theorem dealFlop_turn (s : GState) : (dealFlop s).turn = s.turn := rfl

theorem dealFlop_stage (s : GState) : (dealFlop s).stage = Stage.flop := rfl

theorem dealTurn_player (s : GState) : (dealTurn s).player = s.player := rfl

theorem dealTurn_opponent (s : GState) : (dealTurn s).opponent = s.opponent := rfl

theorem dealTurn_pot (s : GState) : (dealTurn s).pot = s.pot := rfl

theorem dealTurn_button (s : GState) : (dealTurn s).button = s.button := rfl

theorem dealTurn_turn (s : GState) : (dealTurn s).turn = s.turn := rfl

theorem dealTurn_stage (s : GState) : (dealTurn s).stage = Stage.turn := rfl

theorem dealRiver_player (s : GState) : (dealRiver s).player = s.player := rfl

theorem dealRiver_opponent (s : GState) : (dealRiver s).opponent = s.opponent := rfl

theorem dealRiver_pot (s : GState) : (dealRiver s).pot = s.pot := rfl

theorem dealRiver_button (s : GState) : (dealRiver s).button = s.button := rfl

theorem dealRiver_turn (s : GState) : (dealRiver s).turn = s.turn := rfl

theorem dealRiver_stage (s : GState) : (dealRiver s).stage = Stage.river := rfl

theorem who_opponent_ne_player : ¬ (Who.opponent = Who.player) :=
  fun h => Who.noConfusion h

theorem who_player_ne_opponent : ¬ (Who.player = Who.opponent) :=
  fun h => Who.noConfusion h

theorem stage_preflop_ne_river : ¬ (Stage.preflop = Stage.river) :=
  fun h => Stage.noConfusion h

theorem stage_flop_ne_river : ¬ (Stage.flop = Stage.river) :=
  fun h => Stage.noConfusion h

theorem stage_turn_ne_river : ¬ (Stage.turn = Stage.river) :=
  fun h => Stage.noConfusion h

set_option maxRecDepth 4000 in
/-- C2 (code_bug): when a street transition fires because the bets became
equal, both the user path (`advanceOrSwitch`) and the AI path set the
turn to the BUTTON seat, not the non-button seat: with the player on the
button, the flop is dealt and the player acts first; with the opponent on
the button, the opponent acts first. The comments in the source at both
sites say the big blind (non-button) should act first. -/
theorem postflop_first_actor_is_button :
    handStartEx.button = Who.player ∧
    flopEx.stage = Stage.flop ∧
    flopEx.turn = Who.player ∧
    (startHand fullDeckCards Who.player 10000 10000).button = Who.opponent ∧
    flopAiEx.stage = Stage.flop ∧
    flopAiEx.turn = Who.opponent := by
  norm_num [flopEx, flopAiEx, aiCheckedEx, handStartEx, startHand,
    dealHole_chipFields,
    dealFlop_player, dealFlop_opponent, dealFlop_pot, dealFlop_button,
    dealFlop_turn, dealFlop_stage, dealTurn_player, dealTurn_opponent,
    dealTurn_stage, dealRiver_player, dealRiver_opponent, dealRiver_stage,
    postBlinds, betPlayer, betOpponent, bet, bigBlind,
    userAction, userToCall, userCallApplied, advanceOrSwitch, advanceStageStep,
    nextAction, goToShowdown, aiAction, aiApply, aiAdvance, aiToCall,
    max_def, min_def, who_opponent_ne_player, who_player_ne_opponent,
    stage_preflop_ne_river, stage_flop_ne_river, stage_turn_ne_river]

set_option maxRecDepth 4000 in
/-- C4 (counterexample): the player raises by zero additional chips over
the call amount, which equalizes the current bets at 100 each; the claim
requires the bets to be reset and the stage to advance to the flop, but
the user raise path never performs the equal-bets check: the stage stays
preflop, no board cards are dealt, the bets are not reset, and the turn
simply passes to the opponent. -/
theorem raise_equalized_no_advance :
    raiseZeroEx.player.currentBet = 100 ∧
    raiseZeroEx.opponent.currentBet = 100 ∧
    raiseZeroEx.stage = Stage.preflop ∧
    raiseZeroEx.board = [] ∧
    raiseZeroEx.turn = Who.opponent := by
  norm_num [raiseZeroEx, aiCheckedEx, handStartEx, startHand, dealHole, dealOne,
    pushBoard, Deck.deal, postBlinds, betPlayer, betOpponent, bet, bigBlind,
    userAction, userToCall, userCallApplied, advanceOrSwitch, advanceStageStep,
    nextAction, goToShowdown, aiAction, aiApply, aiAdvance, aiToCall,
    max_def, min_def]

set_option maxRecDepth 4000 in
/-- C9 (counterexample): in the fixture hand (equal stacks 10000, big
blind 100, player on the button) the blinds make the pot 150 with the
player committing 50 and the opponent 100; after the opponent checks and
the player folds, the opponent stack is 10050 — an increase of exactly 50
from hand start (it receives the 150 pot after having committed 100), not
an increase of 150 as claimed. -/
theorem preflop_fold_gain_cex :
    handStartEx.pot = 150 ∧
    handStartEx.player.currentBet = 50 ∧
    handStartEx.opponent.currentBet = 100 ∧
    handStartEx.button = Who.player ∧
    foldEndEx.player.stack = 10000 - 50 ∧
    foldEndEx.opponent.stack = 10050 ∧
    foldEndEx.opponent.stack - 10000 ≠ 150 := by
  norm_num [foldEndEx, aiCheckedEx, handStartEx, startHand, dealHole, dealOne,
    pushBoard, Deck.deal, postBlinds, betPlayer, betOpponent, bet, bigBlind,
    userAction, userToCall, userCallApplied, advanceOrSwitch, advanceStageStep,
    nextAction, goToShowdown, aiAction, aiApply, aiAdvance, aiToCall,
    max_def, min_def]


theorem rankValue_inj (a b : Rank) (h : rankValue a = rankValue b) : a = b := by
  cases a <;> cases b <;> simp_all [rankValue]

theorem startingHandStrength_formula (c1 c2 : Card) :
    startingHandStrength c1 c2 =
      (if c1.rank = c2.rank then
        0.2 + 0.8 * ((rankValue c1.rank : ℚ) / 14)
      else
        min (0.5 * (((max (rankValue c1.rank) (rankValue c2.rank) : ℕ) : ℚ) / 14)
          + 0.1 * (((min (rankValue c1.rank) (rankValue c2.rank) : ℕ) : ℚ) / 14)
          + (if c1.suit = c2.suit then (0.1 : ℚ) else 0)
          + (if max (rankValue c1.rank) (rankValue c2.rank)
                - min (rankValue c1.rank) (rankValue c2.rank) = 1 then (0.1 : ℚ)
             else if max (rankValue c1.rank) (rankValue c2.rank)
                - min (rankValue c1.rank) (rankValue c2.rank) = 2 then 0.05
             else 0)) 1) := by
  obtain ⟨ra, sa⟩ := c1
  obtain ⟨rb, sb⟩ := c2
  dsimp only
  by_cases hr : ra = rb
  · subst hr
    rw [if_pos rfl]
    unfold startingHandStrength
    dsimp only
    rw [if_pos rfl]
    ring
  · rw [if_neg hr]
    unfold startingHandStrength
    dsimp only
    rw [if_neg (fun h => hr (rankValue_inj _ _ (Nat.cast_injective h)))]
    rcases le_total (rankValue ra) (rankValue rb) with hle | hle
    · have hqle : (rankValue ra : ℚ) ≤ (rankValue rb : ℚ) := Nat.cast_le.mpr hle
      have habs : |(rankValue ra : ℚ) - (rankValue rb : ℚ)| =
          ((rankValue rb - rankValue ra : ℕ) : ℚ) := by
        rw [abs_sub_comm, abs_of_nonneg (by linarith), Nat.cast_sub hle]
      rw [max_eq_right hle, min_eq_left hle, max_eq_right hqle, min_eq_left hqle, habs]
      simp only [show ((1 : ℚ)) = ((1 : ℕ) : ℚ) from by norm_num,
        show ((2 : ℚ)) = ((2 : ℕ) : ℚ) from by norm_num, Nat.cast_inj]
      split_ifs <;> ring
    · have hqle : (rankValue rb : ℚ) ≤ (rankValue ra : ℚ) := Nat.cast_le.mpr hle
      have habs : |(rankValue ra : ℚ) - (rankValue rb : ℚ)| =
          ((rankValue ra - rankValue rb : ℕ) : ℚ) := by
        rw [abs_of_nonneg (by linarith), Nat.cast_sub hle]
      rw [max_eq_left hle, min_eq_right hle, max_eq_left hqle, min_eq_right hqle, habs]
      simp only [show ((1 : ℚ)) = ((1 : ℕ) : ℚ) from by norm_num,
        show ((2 : ℚ)) = ((2 : ℕ) : ℚ) from by norm_num, Nat.cast_inj]
      split_ifs <;> ring

theorem startingHandStrength_bounds (c1 c2 : Card) :
    0 ≤ startingHandStrength c1 c2 ∧ startingHandStrength c1 c2 ≤ 1 := by
  obtain ⟨ra, sa⟩ := c1
  obtain ⟨rb, sb⟩ := c2
  have h1l : (2 : ℚ) ≤ (rankValue ra : ℚ) := by cases ra <;> norm_num [rankValue]
  have h1u : (rankValue ra : ℚ) ≤ 14 := by cases ra <;> norm_num [rankValue]
  have h2l : (2 : ℚ) ≤ (rankValue rb : ℚ) := by cases rb <;> norm_num [rankValue]
  have h2u : (rankValue rb : ℚ) ≤ 14 := by cases rb <;> norm_num [rankValue]
  have hmax0 : (0 : ℚ) ≤ max (rankValue ra : ℚ) (rankValue rb : ℚ) :=
    le_trans (by linarith) (le_max_left _ _)
  have hmin0 : (0 : ℚ) ≤ min (rankValue ra : ℚ) (rankValue rb : ℚ) :=
    le_min (by linarith) (by linarith)
  unfold startingHandStrength
  dsimp only
  constructor
  · split_ifs <;>
      first
        | linarith
        | (refine le_min ?_ (by norm_num); linarith)
  · split_ifs <;>
      first
        | linarith
        | exact min_le_right _ _

/-- C8 (confirmed): for every two cards, `startingHandStrength` scores a
pair as exactly 0.2 plus 0.8 times rank/14; a non-pair as 0.5 times
highRank/14 plus 0.1 times lowRank/14, plus 0.1 when suited, plus 0.1
when the ranks differ by 1 and 0.05 when they differ by 2, capped at 1;
and the result always lies in the closed interval from 0 to 1. -/
theorem startingHandStrength_spec (c1 c2 : Card) :
    startingHandStrength c1 c2 =
      (if c1.rank = c2.rank then
        0.2 + 0.8 * ((rankValue c1.rank : ℚ) / 14)
      else
        min (0.5 * (((max (rankValue c1.rank) (rankValue c2.rank) : ℕ) : ℚ) / 14)
          + 0.1 * (((min (rankValue c1.rank) (rankValue c2.rank) : ℕ) : ℚ) / 14)
          + (if c1.suit = c2.suit then (0.1 : ℚ) else 0)
          + (if max (rankValue c1.rank) (rankValue c2.rank)
                - min (rankValue c1.rank) (rankValue c2.rank) = 1 then (0.1 : ℚ)
             else if max (rankValue c1.rank) (rankValue c2.rank)
                - min (rankValue c1.rank) (rankValue c2.rank) = 2 then 0.05
             else 0)) 1) ∧
    0 ≤ startingHandStrength c1 c2 ∧ startingHandStrength c1 c2 ≤ 1 :=
  ⟨startingHandStrength_formula c1 c2, (startingHandStrength_bounds c1 c2).1,
    (startingHandStrength_bounds c1 c2).2⟩


theorem Deck_deal_concat (L : List Card) (c : Card) :
    Deck.deal ⟨L ++ [c]⟩ = (some c, ⟨L⟩) := by
  simp [Deck.deal, List.getLast?_concat, List.dropLast_concat]

theorem dealOne_concat (s : GState) (L : List Card) (c : Card)
    (h : s.deck = ⟨L ++ [c]⟩) :
    dealOne s = (some c, {s with deck := ⟨L⟩}) := by
  unfold dealOne
  rw [h, Deck_deal_concat]

theorem exists_two_concat (l : List Card) (h : 2 ≤ l.length) :
    ∃ L c2 c1, l = (L ++ [c2]) ++ [c1] := by
  rcases List.eq_nil_or_concat l with rfl | ⟨l1, c1, rfl⟩
  · simp at h
  rcases List.eq_nil_or_concat l1 with rfl | ⟨l2, c2, rfl⟩
  · simp at h
  exact ⟨l2, c2, c1, by simp⟩

theorem exists_four_concat (l : List Card) (h : 4 ≤ l.length) :
    ∃ L c4 c3 c2 c1, l = ((((L ++ [c4]) ++ [c3]) ++ [c2]) ++ [c1]) := by
  rcases List.eq_nil_or_concat l with rfl | ⟨l1, c1, rfl⟩
  · simp at h
  rcases List.eq_nil_or_concat l1 with rfl | ⟨l2, c2, rfl⟩
  · simp at h
  rcases List.eq_nil_or_concat l2 with rfl | ⟨l3, c3, rfl⟩
  · simp at h
  rcases List.eq_nil_or_concat l3 with rfl | ⟨l4, c4, rfl⟩
  · simp at h
  exact ⟨l4, c4, c3, c2, c1, by simp⟩

theorem dealFlop_board_length (s : GState) (hd : 4 ≤ s.deck.cards.length) :
    (dealFlop s).board.length = s.board.length + 3 := by
  obtain ⟨deck, board, pot, stage, button, turn, player, opponent⟩ := s
  obtain ⟨cards⟩ := deck
  simp only at hd ⊢
  obtain ⟨L, c4, c3, c2, c1, hL⟩ := exists_four_concat cards hd
  subst hL
  simp only [dealFlop, dealOne, Deck.deal, pushBoard, List.getLast?_concat,
    List.dropLast_concat, List.length_append, List.length_cons, List.length_nil,
    Option.toList_some]

theorem dealTurn_board_length (s : GState) (hd : 2 ≤ s.deck.cards.length) :
    (dealTurn s).board.length = s.board.length + 1 := by
  obtain ⟨deck, board, pot, stage, button, turn, player, opponent⟩ := s
  obtain ⟨cards⟩ := deck
  simp only at hd ⊢
  obtain ⟨L, c2, c1, hL⟩ := exists_two_concat cards hd
  subst hL
  simp only [dealTurn, dealOne, Deck.deal, pushBoard, List.getLast?_concat,
    List.dropLast_concat, List.length_append, List.length_cons, List.length_nil,
    Option.toList_some]

theorem dealRiver_board_length (s : GState) (hd : 2 ≤ s.deck.cards.length) :
    (dealRiver s).board.length = s.board.length + 1 := by
  obtain ⟨deck, board, pot, stage, button, turn, player, opponent⟩ := s
  obtain ⟨cards⟩ := deck
  simp only at hd ⊢
  obtain ⟨L, c2, c1, hL⟩ := exists_two_concat cards hd
  subst hL
  simp only [dealRiver, dealOne, Deck.deal, pushBoard, List.getLast?_concat,
    List.dropLast_concat, List.length_append, List.length_cons, List.length_nil,
    Option.toList_some]

theorem advanceStageStep_eq_preflop (s : GState) (hst : s.stage = Stage.preflop) :
    advanceStageStep s = dealFlop s := by
  unfold advanceStageStep
  rw [hst]

theorem advanceStageStep_eq_flop (s : GState) (hst : s.stage = Stage.flop) :
    advanceStageStep s = dealTurn s := by
  unfold advanceStageStep
  rw [hst]

theorem advanceStageStep_eq_turn (s : GState) (hst : s.stage = Stage.turn) :
    advanceStageStep s = dealRiver s := by
  unfold advanceStageStep
  rw [hst]

theorem advanceStageStep_eq_river (s : GState) (hst : s.stage = Stage.river) :
    advanceStageStep s = goToShowdown s := by
  unfold advanceStageStep
  rw [hst]

theorem advanceStageStep_eq_showdown (s : GState) (hst : s.stage = Stage.showdown) :
    advanceStageStep s = s := by
  unfold advanceStageStep
  rw [hst]

theorem advanceStageStep_spec (R : GState) (hd : 4 ≤ R.deck.cards.length) :
    (advanceStageStep R).player.currentBet = R.player.currentBet ∧
    (advanceStageStep R).opponent.currentBet = R.opponent.currentBet ∧
    (advanceStageStep R).stage = specNextStage R.stage ∧
    (advanceStageStep R).board.length = R.board.length + specBoardInc R.stage := by
  rcases hst : R.stage with _ | _ | _ | _ | _
  · rw [advanceStageStep_eq_preflop R hst]
    exact ⟨rfl, rfl, rfl, dealFlop_board_length R hd⟩
  · rw [advanceStageStep_eq_flop R hst]
    exact ⟨rfl, rfl, rfl, dealTurn_board_length R (by omega)⟩
  · rw [advanceStageStep_eq_turn R hst]
    exact ⟨rfl, rfl, rfl, dealRiver_board_length R (by omega)⟩
  · rw [advanceStageStep_eq_river R hst]
    refine ⟨(goToShowdown_fields R).2.1, (goToShowdown_fields R).2.2.1,
      goToShowdown_stage R, ?_⟩
    rw [(goToShowdown_fields R).1]
    rfl
  · rw [advanceStageStep_eq_showdown R hst]
    exact ⟨rfl, rfl, hst, rfl⟩

theorem advanceStageStep_folded (s : GState) :
    (advanceStageStep s).player.folded = s.player.folded ∧
    (advanceStageStep s).opponent.folded = s.opponent.folded := by
  unfold advanceStageStep
  split
  · exact ⟨rfl, rfl⟩
  · exact ⟨rfl, rfl⟩
  · exact ⟨rfl, rfl⟩
  · exact ⟨(goToShowdown_fields _).2.2.2.1, (goToShowdown_fields _).2.2.2.2.1⟩
  · exact ⟨rfl, rfl⟩

theorem userCallApplied_fields (s : GState) :
    (userCallApplied s).player.folded = s.player.folded ∧
    (userCallApplied s).opponent.folded = s.opponent.folded ∧
    (userCallApplied s).stage = s.stage ∧
    (userCallApplied s).button = s.button ∧
    (userCallApplied s).board = s.board ∧
    (userCallApplied s).deck = s.deck ∧
    (userCallApplied s).turn = s.turn := by
  unfold userCallApplied
  split
  · exact ⟨rfl, rfl, rfl, rfl, rfl, rfl, rfl⟩
  · exact ⟨rfl, rfl, rfl, rfl, rfl, rfl, rfl⟩

theorem advanceOrSwitch_advances (s : GState)
    (heq : s.player.currentBet = s.opponent.currentBet)
    (hp : s.player.folded = false) (ho : s.opponent.folded = false) :
    advanceOrSwitch s =
      {advanceStageStep
          {s with
            player := {s.player with currentBet := 0},
            opponent := {s.opponent with currentBet := 0}} with
        turn := if s.button = Who.player then Who.player else Who.opponent} := by
  unfold advanceOrSwitch
  rw [if_pos heq]
  dsimp only
  refine nextAction_id _ ?_ ?_
  · exact (advanceStageStep_folded _).1.trans hp
  · exact (advanceStageStep_folded _).2.trans ho

theorem advanceOrSwitch_switches (s : GState)
    (hne : s.player.currentBet ≠ s.opponent.currentBet)
    (hp : s.player.folded = false) (ho : s.opponent.folded = false) :
    advanceOrSwitch s = {s with turn := s.turn.other} := by
  unfold advanceOrSwitch
  rw [if_neg hne]
  exact nextAction_id _ hp ho

theorem aiAdvance_advances_nonriver (s : GState)
    (heq : s.player.currentBet = s.opponent.currentBet)
    (hp : s.player.folded = false) (ho : s.opponent.folded = false)
    (hnr : s.stage ≠ Stage.river) (hns : s.stage ≠ Stage.showdown) :
    aiAdvance s =
      {advanceStageStep
          {s with
            player := {s.player with currentBet := 0},
            opponent := {s.opponent with currentBet := 0}} with
        turn := if s.button = Who.player then Who.player else Who.opponent} := by
  unfold aiAdvance
  rw [if_pos heq]
  dsimp only
  rw [if_neg hnr]
  rcases hst : s.stage with _ | _ | _ | _ | _
  · exact nextAction_id _ hp ho
  · exact nextAction_id _ hp ho
  · exact nextAction_id _ hp ho
  · exact absurd hst hnr
  · exact absurd hst hns

theorem aiAdvance_advances_river (s : GState)
    (heq : s.player.currentBet = s.opponent.currentBet)
    (hst : s.stage = Stage.river) :
    aiAdvance s =
      goToShowdown
        {s with
          player := {s.player with currentBet := 0},
          opponent := {s.opponent with currentBet := 0}} := by
  unfold aiAdvance
  rw [if_pos heq]
  dsimp only
  rw [if_pos hst]

theorem aiAdvance_switches (s : GState)
    (hne : s.player.currentBet ≠ s.opponent.currentBet)
    (hp : s.player.folded = false) (ho : s.opponent.folded = false) :
    aiAdvance s = {s with turn := Who.player} := by
  unfold aiAdvance
  rw [if_neg hne]
  exact nextAction_id _ hp ho

theorem aiApply_fields (s : GState) (a : AAct) (h : a ≠ AAct.fold) :
    (aiApply s a).player = s.player ∧
    (aiApply s a).opponent.folded = s.opponent.folded ∧
    (aiApply s a).stage = s.stage ∧
    (aiApply s a).button = s.button ∧
    (aiApply s a).board = s.board ∧
    (aiApply s a).deck = s.deck := by
  cases a
  · exact absurd rfl h
  · dsimp only [aiApply]
    split
    · exact ⟨rfl, rfl, rfl, rfl, rfl, rfl⟩
    · exact ⟨rfl, rfl, rfl, rfl, rfl, rfl⟩
  · exact ⟨rfl, rfl, rfl, rfl, rfl, rfl⟩
  · exact ⟨rfl, rfl, rfl, rfl, rfl, rfl⟩

theorem userCheck_advances (s : GState)
    (hp : s.player.folded = false) (ho : s.opponent.folded = false)
    (hd : 4 ≤ s.deck.cards.length)
    (heq : (userCallApplied s).player.currentBet = (userCallApplied s).opponent.currentBet) :
    (userAction s UAct.check).player.currentBet = 0 ∧
    (userAction s UAct.check).opponent.currentBet = 0 ∧
    (userAction s UAct.check).stage = specNextStage s.stage ∧
    (userAction s UAct.check).board.length = s.board.length + specBoardInc s.stage := by
  have hu := userCallApplied_fields s
  have hp1 : (userCallApplied s).player.folded = false := hu.1.trans hp
  have ho1 : (userCallApplied s).opponent.folded = false := hu.2.1.trans ho
  have hA := advanceOrSwitch_advances (userCallApplied s) heq hp1 ho1
  have hd1 : 4 ≤ (userCallApplied s).deck.cards.length := by
    rw [hu.2.2.2.2.2.1]
    exact hd
  have hspec := advanceStageStep_spec
    {userCallApplied s with
      player := {(userCallApplied s).player with currentBet := 0},
      opponent := {(userCallApplied s).opponent with currentBet := 0}} hd1
  rw [show userAction s UAct.check = advanceOrSwitch (userCallApplied s) from rfl, hA]
  refine ⟨hspec.1, hspec.2.1, hspec.2.2.1.trans ?_, hspec.2.2.2.trans ?_⟩
  · rw [show ({userCallApplied s with
      player := {(userCallApplied s).player with currentBet := 0},
      opponent := {(userCallApplied s).opponent with currentBet := 0}} : GState).stage =
        s.stage from hu.2.2.1]
  · rw [show ({userCallApplied s with
      player := {(userCallApplied s).player with currentBet := 0},
      opponent := {(userCallApplied s).opponent with currentBet := 0}} : GState).stage =
        s.stage from hu.2.2.1,
      show ({userCallApplied s with
      player := {(userCallApplied s).player with currentBet := 0},
      opponent := {(userCallApplied s).opponent with currentBet := 0}} : GState).board =
        s.board from hu.2.2.2.2.1]

theorem aiNonFold_eq (s : GState) (a : AAct) (hna : a ≠ AAct.fold) :
    aiAction s a = aiAdvance (aiApply s a) := by
  cases a
  · exact absurd rfl hna
  · rfl
  · rfl
  · rfl

theorem aiNonFold_advances (s : GState) (a : AAct) (hna : a ≠ AAct.fold)
    (hp : s.player.folded = false) (ho : s.opponent.folded = false)
    (hs : s.stage ≠ Stage.showdown) (hd : 4 ≤ s.deck.cards.length)
    (heq : (aiApply s a).player.currentBet = (aiApply s a).opponent.currentBet) :
    (aiAction s a).player.currentBet = 0 ∧
    (aiAction s a).opponent.currentBet = 0 ∧
    (aiAction s a).stage = specNextStage s.stage ∧
    (aiAction s a).board.length = s.board.length + specBoardInc s.stage := by
  have hf := aiApply_fields s a hna
  have hp2 : (aiApply s a).player.folded = false := by rw [hf.1]; exact hp
  have ho2 : (aiApply s a).opponent.folded = false := hf.2.1.trans ho
  rw [aiNonFold_eq s a hna]
  by_cases hr : s.stage = Stage.river
  · rw [aiAdvance_advances_river _ heq (hf.2.2.1.trans hr)]
    have hg := goToShowdown_fields
      {aiApply s a with
        player := {(aiApply s a).player with currentBet := 0},
        opponent := {(aiApply s a).opponent with currentBet := 0}}
    refine ⟨hg.2.1, hg.2.2.1, ?_, ?_⟩
    · rw [goToShowdown_stage, hr]
      rfl
    · rw [hg.1, hr,
        show ({aiApply s a with
          player := {(aiApply s a).player with currentBet := 0},
          opponent := {(aiApply s a).opponent with currentBet := 0}} : GState).board =
            s.board from hf.2.2.2.2.1]
      rfl
  · rw [aiAdvance_advances_nonriver _ heq hp2 ho2
      (fun h => hr (hf.2.2.1.symm.trans h))
      (fun h => hs (hf.2.2.1.symm.trans h))]
    have hd2 : 4 ≤ (aiApply s a).deck.cards.length := by
      rw [hf.2.2.2.2.2]
      exact hd
    have hspec := advanceStageStep_spec
      {aiApply s a with
        player := {(aiApply s a).player with currentBet := 0},
        opponent := {(aiApply s a).opponent with currentBet := 0}} hd2
    refine ⟨hspec.1, hspec.2.1, hspec.2.2.1.trans ?_, hspec.2.2.2.trans ?_⟩
    · rw [show ({aiApply s a with
        player := {(aiApply s a).player with currentBet := 0},
        opponent := {(aiApply s a).opponent with currentBet := 0}} : GState).stage =
          s.stage from hf.2.2.1]
    · rw [show ({aiApply s a with
        player := {(aiApply s a).player with currentBet := 0},
        opponent := {(aiApply s a).opponent with currentBet := 0}} : GState).stage =
          s.stage from hf.2.2.1,
        show ({aiApply s a with
        player := {(aiApply s a).player with currentBet := 0},
        opponent := {(aiApply s a).opponent with currentBet := 0}} : GState).board =
          s.board from hf.2.2.2.2.1]

set_option maxRecDepth 4000 in
/-- C4 (amended): after a user check or call and after every non-fold AI
action the equal-bets rule holds: if the two current bets are then equal
they are both reset to 0 and the stage advances (Preflop to Flop dealing
3 board cards, Flop to Turn dealing 1, Turn to River dealing 1, River to
Showdown), otherwise the turn switches to the other player with the stage
unchanged; but after a user all-in or raise the equal-bets check is
skipped entirely: the turn passes to the opponent with the stage and
board unchanged even when the bets are now equal. -/
theorem post_action_advance_rule (s : GState) (amt : ℚ)
    (hp : s.player.folded = false) (ho : s.opponent.folded = false)
    (hs : s.stage ≠ Stage.showdown) (hd : 4 ≤ s.deck.cards.length) :
    ((userCallApplied s).player.currentBet = (userCallApplied s).opponent.currentBet →
      (userAction s UAct.check).player.currentBet = 0 ∧
      (userAction s UAct.check).opponent.currentBet = 0 ∧
      (userAction s UAct.check).stage = specNextStage s.stage ∧
      (userAction s UAct.check).board.length = s.board.length + specBoardInc s.stage) ∧
    ((userCallApplied s).player.currentBet ≠ (userCallApplied s).opponent.currentBet →
      userAction s UAct.check = {userCallApplied s with turn := (userCallApplied s).turn.other}) ∧
    ((userAction s UAct.allin).stage = s.stage ∧
      (userAction s UAct.allin).turn = Who.opponent ∧
      (userAction s UAct.allin).board = s.board) ∧
    ((userAction s (UAct.raise amt)).stage = s.stage ∧
      (userAction s (UAct.raise amt)).turn = Who.opponent ∧
      (userAction s (UAct.raise amt)).board = s.board) ∧
    (∀ a : AAct, a ≠ AAct.fold →
      ((aiApply s a).player.currentBet = (aiApply s a).opponent.currentBet →
        (aiAction s a).player.currentBet = 0 ∧
        (aiAction s a).opponent.currentBet = 0 ∧
        (aiAction s a).stage = specNextStage s.stage ∧
        (aiAction s a).board.length = s.board.length + specBoardInc s.stage) ∧
      ((aiApply s a).player.currentBet ≠ (aiApply s a).opponent.currentBet →
        aiAction s a = {aiApply s a with turn := Who.player})) := by
  have hu := userCallApplied_fields s
  have hp1 : (userCallApplied s).player.folded = false := hu.1.trans hp
  have ho1 : (userCallApplied s).opponent.folded = false := hu.2.1.trans ho
  refine ⟨fun heq => userCheck_advances s hp ho hd heq,
    fun hne => advanceOrSwitch_switches (userCallApplied s) hne hp1 ho1,
    ?_, ?_, ?_⟩
  · have h1 : userAction s UAct.allin =
        {betPlayer s s.player.stack with turn := Who.opponent} :=
      nextAction_id _ hp ho
    rw [h1]
    exact ⟨rfl, rfl, rfl⟩
  · have h1 : userAction s (UAct.raise amt) =
        {betPlayer s (userToCall s + amt) with turn := Who.opponent} :=
      nextAction_id _ hp ho
    rw [h1]
    exact ⟨rfl, rfl, rfl⟩
  · intro a hna
    have hf := aiApply_fields s a hna
    have hp2 : (aiApply s a).player.folded = false := by rw [hf.1]; exact hp
    have ho2 : (aiApply s a).opponent.folded = false := hf.2.1.trans ho
    refine ⟨fun heq => aiNonFold_advances s a hna hp ho hs hd heq, fun hne => ?_⟩
    rw [aiNonFold_eq s a hna]
    exact aiAdvance_switches _ hne hp2 ho2

/-- Witness for C4: the amended rule applied at the concrete preflop
fixture state with a raise amount of 0. -/
theorem post_action_advance_rule_witness :
    c4WitnessState.player.folded = false ∧
    c4WitnessState.opponent.folded = false ∧
    c4WitnessState.stage ≠ Stage.showdown ∧
    4 ≤ c4WitnessState.deck.cards.length ∧
    (((userCallApplied c4WitnessState).player.currentBet =
        (userCallApplied c4WitnessState).opponent.currentBet →
      (userAction c4WitnessState UAct.check).player.currentBet = 0 ∧
      (userAction c4WitnessState UAct.check).opponent.currentBet = 0 ∧
      (userAction c4WitnessState UAct.check).stage = specNextStage c4WitnessState.stage ∧
      (userAction c4WitnessState UAct.check).board.length =
        c4WitnessState.board.length + specBoardInc c4WitnessState.stage) ∧
    ((userCallApplied c4WitnessState).player.currentBet ≠
        (userCallApplied c4WitnessState).opponent.currentBet →
      userAction c4WitnessState UAct.check =
        {userCallApplied c4WitnessState with
          turn := (userCallApplied c4WitnessState).turn.other}) ∧
    ((userAction c4WitnessState UAct.allin).stage = c4WitnessState.stage ∧
      (userAction c4WitnessState UAct.allin).turn = Who.opponent ∧
      (userAction c4WitnessState UAct.allin).board = c4WitnessState.board) ∧
    ((userAction c4WitnessState (UAct.raise 0)).stage = c4WitnessState.stage ∧
      (userAction c4WitnessState (UAct.raise 0)).turn = Who.opponent ∧
      (userAction c4WitnessState (UAct.raise 0)).board = c4WitnessState.board) ∧
    (∀ a : AAct, a ≠ AAct.fold →
      ((aiApply c4WitnessState a).player.currentBet =
          (aiApply c4WitnessState a).opponent.currentBet →
        (aiAction c4WitnessState a).player.currentBet = 0 ∧
        (aiAction c4WitnessState a).opponent.currentBet = 0 ∧
        (aiAction c4WitnessState a).stage = specNextStage c4WitnessState.stage ∧
        (aiAction c4WitnessState a).board.length =
          c4WitnessState.board.length + specBoardInc c4WitnessState.stage) ∧
      ((aiApply c4WitnessState a).player.currentBet ≠
          (aiApply c4WitnessState a).opponent.currentBet →
        aiAction c4WitnessState a = {aiApply c4WitnessState a with turn := Who.player}))) :=
  ⟨rfl, rfl, by decide, by decide,
    post_action_advance_rule c4WitnessState 0 rfl rfl (by decide) (by decide)⟩

/-- C9 (amended): with equal starting stacks of at least the big blind
(100) and the player on the button, posting blinds commits 50 for the
player and 100 for the opponent making the pot 150; when the opponent
checks its option and the player then folds, the player stack ends
exactly 50 below its hand-start value and the opponent stack exactly 50
above it (the opponent receives the 150 pot after having committed 100). -/
theorem preflop_fold_scenario (S : ℚ) (deck : List Card) (hS : 100 ≤ S) :
    (startHand deck Who.opponent S S).pot = 150 ∧
    (startHand deck Who.opponent S S).player.currentBet = 50 ∧
    (startHand deck Who.opponent S S).opponent.currentBet = 100 ∧
    (startHand deck Who.opponent S S).button = Who.player ∧
    (userAction (aiAction (startHand deck Who.opponent S S) AAct.check)
        UAct.fold).player.stack = S - 50 ∧
    (userAction (aiAction (startHand deck Who.opponent S S) AAct.check)
        UAct.fold).opponent.stack = S + 50 := by
  have h50 : min (50 : ℚ) S = 50 := min_eq_left (by linarith)
  have h100 : min (100 : ℚ) S = 100 := min_eq_left (by linarith)
  have hmax : max (0 : ℚ) ((0 + 50) - (0 + 100)) = 0 := by
    rw [max_eq_left (by norm_num)]
  norm_num [startHand, dealHole_chipFields, postBlinds, betPlayer, betOpponent,
    bet, bigBlind, userAction, userToCall, userCallApplied, advanceOrSwitch,
    advanceStageStep, nextAction, goToShowdown, aiAction, aiApply, aiAdvance,
    aiToCall, h50, h100, hmax, who_opponent_ne_player, who_player_ne_opponent]
  linarith

/-- Witness for C9: the amended scenario at stacks of 10000 and the
fresh-ordered deck. -/
theorem preflop_fold_scenario_witness :
    (100 : ℚ) ≤ 10000 ∧
    ((startHand fullDeckCards Who.opponent 10000 10000).pot = 150 ∧
    (startHand fullDeckCards Who.opponent 10000 10000).player.currentBet = 50 ∧
    (startHand fullDeckCards Who.opponent 10000 10000).opponent.currentBet = 100 ∧
    (startHand fullDeckCards Who.opponent 10000 10000).button = Who.player ∧
    (userAction (aiAction (startHand fullDeckCards Who.opponent 10000 10000) AAct.check)
        UAct.fold).player.stack = 10000 - 50 ∧
    (userAction (aiAction (startHand fullDeckCards Who.opponent 10000 10000) AAct.check)
        UAct.fold).opponent.stack = 10000 + 50) :=
  ⟨by norm_num, preflop_fold_scenario 10000 fullDeckCards (by norm_num)⟩

end HeadsUp
